import Mathlib

/-!
# mdt write path: `src/sdk/db_impl.cc`

A shallow embedding of `DatabaseImpl` and `TableImpl` from `src/sdk/db_impl.cc`
and a verification of the schema assembly, the table registry and the
fan-out / fan-in protocol of `TableImpl::Put` and `PutCallback`.

Conventions of the embedding

* C++ output parameters become part of the returned value.
* The map of table handles of a `TableImpl` is a function from names to
  `Option`, a null or absent entry being `none`; the registry of a
  `DatabaseImpl` is an association list.
* The steps of `Put` and the completions of its mutations are the events of a
  state machine; a run is a list of events.
* Enum tags (`primary_key_type`, `index_key_type`) are natural numbers.
* Dereferencing a null handle or using a dangling reference stops the
  program: the `crashed` program point.
-/

namespace mdt

/-! ## Data model -/

/-- One secondary index of a table: `IndexDescription`. -/
structure IndexDescription where
  index_name : String
  index_key_type : Nat
  deriving DecidableEq, Repr, Inhabited

/-- The description of a table handed to `CreateTable`: `TableDescription`. -/
structure TableDescription where
  table_name : String
  primary_key_type : Nat
  index_descriptor_list : List IndexDescription
  deriving DecidableEq, Repr, Inhabited

/-- The persisted form of one index: message `IndexSchema`. A default
constructed message has an empty name and tag 0. -/
structure IndexSchema where
  index_name : String := ""
  index_key_type : Nat := 0
  deriving DecidableEq, Repr, Inhabited

/-- The persisted form of a table description: message `BigQueryTableSchema`.
A default constructed message is empty. -/
structure BigQueryTableSchema where
  table_name : String := ""
  primary_key_type : Nat := 0
  index_descriptor_list : List IndexSchema := []
  deriving DecidableEq, Repr, Inhabited

/-- The accessor `schema->add_index_descriptor_list(index)`: appends one entry
to the repeated field. -/
def BigQueryTableSchema.add_index_descriptor_list (schema : BigQueryTableSchema)
    (index : IndexSchema) : BigQueryTableSchema :=
  { schema with index_descriptor_list := schema.index_descriptor_list ++ [index] }

/-! ## Schema assembly (`db_impl.cc`, lines 129-148) -/

/-- The body of the loop of `TableImpl::AssembleTableSchema` (lines 137-140)
for the descriptor `it`. -/
def AssembleTableSchema.body (schema : BigQueryTableSchema) (it : IndexDescription) :
    BigQueryTableSchema :=
  let index : IndexSchema := {}
  let index := { index with index_name := it.index_name }
  let index := { index with index_key_type := it.index_key_type }
  schema.add_index_descriptor_list index

/-- The function `TableImpl::AssembleTableSchema` (lines 129-143). The schema
is an in/out parameter: the result is the return code and the schema after
the call. -/
def AssembleTableSchema (table_desc : TableDescription) (schema : BigQueryTableSchema) :
    Int × BigQueryTableSchema :=
  let schema := { schema with table_name := table_desc.table_name }
  let schema := { schema with primary_key_type := table_desc.primary_key_type }
  let schema := table_desc.index_descriptor_list.foldl AssembleTableSchema.body schema
  (0, schema)

/-- The function `TableImpl::DisassembleTableSchema` (lines 145-148). Its
body is `return 0;`: the output description is left as the caller passed it. -/
def DisassembleTableSchema (_schema : BigQueryTableSchema) (table_desc : TableDescription) :
    Int × TableDescription :=
  (0, table_desc)

/-- The entry of the schema that corresponds to one index description. -/
def IndexDescription.toSchema (d : IndexDescription) : IndexSchema :=
  { index_name := d.index_name, index_key_type := d.index_key_type }

/-! ## External collaborators

The table service, the filesystem and the value log are declared outside
`db_impl.cc`. Only what `db_impl.cc` calls is represented, as data. -/

/-- A handle to an opened remote table: `tera::Table*` (non-null). -/
structure Table where
  name : String
  deriving DecidableEq, Repr, Inhabited

/-- The table service client `tera::Client`: `OpenTable` returns a handle or
null (`none`). -/
structure Client where
  OpenTable : String → Option Table

/-- Modelled from the spec: the type `FileLocation` is declared outside
`db_impl.cc`; the spec calls it an opaque location pointer. It is represented
by the bytes `SerializeToString` returns; a default constructed location
serializes to the empty string. -/
structure FileLocation where
  SerializeToString : String := ""
  deriving DecidableEq, Repr, Inhabited

/-- Modelled from the spec: the class `DataWriter` is declared outside
`db_impl.cc`. `AddRecord data location` appends `data`; the result is whether
the append succeeded and the value of `*location` after the call. -/
structure DataWriter where
  fname : String
  AddRecord : String → FileLocation → Bool × FileLocation

/-- The environment `options.env_`. `NewDataWriter fname` stands for
`NewWritableFile(fname, &file)` followed by `new DataWriter(fname, file)`
(lines 236-237), which `GetDataWriter` does not get to. -/
structure Env where
  NewDataWriter : String → DataWriter

/-- The struct `FilesystemAdapter`. -/
structure FilesystemAdapter where
  root_path_ : String
  env_ : Env
  writer_ : Option DataWriter := none

/-- The struct `TeraOptions`. -/
structure TeraOptions where
  root_path_ : String
  tera_flag_ : String
  client_ : Client

/-- The struct `TeraAdapter`; `tera_table_map_` maps a table name to the
handle stored for it, `none` standing for null or absent. -/
structure TeraAdapter where
  opt_ : TeraOptions
  table_prefix_ : String
  tera_table_map_ : String → Option Table := fun _ => none

/-- The assignment `map[key] = value` on `tera_table_map_`. -/
def TeraAdapter.set (tera : TeraAdapter) (key : String) (value : Option Table) : TeraAdapter :=
  { tera with tera_table_map_ := fun k => if k = key then value else tera.tera_table_map_ k }

/-! ## `TableImpl` -/

/-- The class `TableImpl`. -/
structure TableImpl where
  table_desc_ : TableDescription
  tera_ : TeraAdapter
  fs_ : FilesystemAdapter

/-- The body of the index loop of the constructor (lines 116-125). -/
def TableImpl.new.body (tera : TeraAdapter) (it : IndexDescription) : TeraAdapter :=
  let index_table_name := tera.table_prefix_ ++ "#" ++ it.index_name
  let index_table := tera.opt_.client_.OpenTable index_table_name
  tera.set index_table_name index_table

/-- The constructor `TableImpl::TableImpl` (lines 82-127), restricted to the
object it builds: the remote tables are opened and their handles stored under
`{table_prefix_}#{name}`. -/
def TableImpl.new (table_desc : TableDescription) (tera_adapter : TeraAdapter)
    (fs_adapter : FilesystemAdapter) : TableImpl :=
  let primary_table_name := tera_adapter.table_prefix_ ++ "#" ++ table_desc.table_name
  let primary_table := tera_adapter.opt_.client_.OpenTable primary_table_name
  let tera := tera_adapter.set primary_table_name primary_table
  let tera := table_desc.index_descriptor_list.foldl TableImpl.new.body tera
  { table_desc_ := table_desc, tera_ := tera, fs_ := fs_adapter }

/-- The function `TableImpl::GetTable` (lines 203-207). -/
def TableImpl.GetTable (self : TableImpl) (table_name : String) : Option Table :=
  let index_table_name := self.tera_.table_prefix_ ++ "#" ++ table_name
  self.tera_.tera_table_map_ index_table_name

/-- The function `TableImpl::GetDataWriter` (lines 231-241): the table and
the writer returned, or `none` when the call does not return a writer. With
`fs_.writer_` set the writer is returned as it is. With `fs_.writer_` null,
line 234 builds the file name from `TimeToString()`, which returns a
reference to its local `time_buf` (lines 209-229) that no longer exists: the
use of the dangling reference stops the program before line 236. (Line 237
moreover assigns `fs_writer`, not `fs_.writer_`, so that branch never sets
the writer that line 239 reads.) -/
def TableImpl.GetDataWriter (self : TableImpl) : Option (TableImpl × DataWriter) :=
  match self.fs_.writer_ with
  | none => none
  | some writer => some (self, writer)

/-! ## `DatabaseImpl` (lines 45-79) -/

/-- The value of a `TableImpl*` variable: never assigned, or pointing to a
constructed table. -/
inductive TablePtr where
  | uninitialized
  | table (t : TableImpl)

/-- The struct with the filesystem options of the database. -/
structure FilesystemOptions where
  fs_path_ : String

/-- The class `DatabaseImpl`. `table_map_` is the registry, a `std::map` kept
as an association list with at most one entry per key; `constructed` counts
the `new TableImpl` executed so far. -/
structure DatabaseImpl where
  env_ : Env
  db_name_ : String
  fs_opt_ : FilesystemOptions
  tera_opt_ : TeraOptions
  table_map_ : List (String × TablePtr) := []
  constructed : Nat := 0

/-- The request of `CreateTable`. -/
structure CreateRequest where
  db_name : String
  table_descriptor_list : List TableDescription

/-- The lookup `table_map_.find(name) != table_map_.end()`. -/
def DatabaseImpl.registered (db : DatabaseImpl) (name : String) : Bool :=
  db.table_map_.any (fun e => e.1 == name)

/-- The assignment `table_map_[name] = table_ptr`. -/
def DatabaseImpl.register (db : DatabaseImpl) (name : String) (table_ptr : TablePtr) :
    DatabaseImpl :=
  if db.registered name then
    { db with table_map_ :=
        db.table_map_.map (fun e => if e.1 == name then (name, table_ptr) else e) }
  else
    { db with table_map_ := db.table_map_ ++ [(name, table_ptr)] }

/-- The function `DatabaseImpl::InternalCreateTable` (lines 63-79): the return
code, the pointer stored in `*table`, and the database after the call. -/
def DatabaseImpl.InternalCreateTable (db : DatabaseImpl) (table_desc : TableDescription) :
    Int × TableImpl × DatabaseImpl :=
  let table_name := table_desc.table_name
  let fs_adapter : FilesystemAdapter :=
    { root_path_ := db.fs_opt_.fs_path_ ++ "/" ++ table_name ++ "/", env_ := db.env_ }
  let tera_adapter : TeraAdapter := { opt_ := db.tera_opt_, table_prefix_ := db.db_name_ }
  let table_ptr := TableImpl.new table_desc tera_adapter fs_adapter
  (0, table_ptr, { db with constructed := db.constructed + 1 })

/-- The body of the loop of `CreateTable` (lines 52-58) for the description
`it`. `ndebug` tells whether `NDEBUG` is defined: then `assert(e)` expands to
nothing and `e` is not evaluated; otherwise `e` is evaluated and the process
aborts (`none`) when it is 0. -/
def DatabaseImpl.CreateTable.body (ndebug : Bool) (db : DatabaseImpl) (it : TableDescription) :
    Option DatabaseImpl :=
  if db.registered it.table_name then
    some db
  else if ndebug then
    some (db.register it.table_name TablePtr.uninitialized)
  else
    let (ret, table_ptr, db) := db.InternalCreateTable it
    if ret = 0 then none
    else some (db.register it.table_name (TablePtr.table table_ptr))

/-- The loop of `CreateTable` (lines 49-59). -/
def DatabaseImpl.CreateTable.loop (ndebug : Bool) (db : DatabaseImpl) :
    List TableDescription → Option DatabaseImpl
  | [] => some db
  | it :: rest =>
    match DatabaseImpl.CreateTable.body ndebug db it with
    | none => none
    | some db => DatabaseImpl.CreateTable.loop ndebug db rest

/-- The function `DatabaseImpl::CreateTable` (lines 45-61): `none` when an
assertion aborts the process, otherwise the return code and the database
after the call. -/
def DatabaseImpl.CreateTable (ndebug : Bool) (db : DatabaseImpl) (req : CreateRequest) :
    Option (Int × DatabaseImpl) :=
  if !ndebug && db.db_name_ != req.db_name then none
  else
    match DatabaseImpl.CreateTable.loop ndebug db req.table_descriptor_list with
    | none => none
    | some db => some (0, db)

/-- The number of entries of the registry under `name`. -/
def DatabaseImpl.count (db : DatabaseImpl) (name : String) : Nat :=
  db.table_map_.countP (fun e => e.1 == name)

/-- The table the registry holds under `name`, when the entry points to a
constructed table. -/
def DatabaseImpl.find (db : DatabaseImpl) (name : String) : Option TableImpl :=
  match db.table_map_.find? (fun e => e.1 == name) with
  | some (_, TablePtr.table t) => some t
  | _ => none

/-! ## `TableImpl::Put` and `PutCallback` (lines 150-201) -/

/-- One entry of `StoreRequest::index_list`: struct `Index`. -/
structure Index where
  index_name : String
  index_key : String
  deriving DecidableEq, Repr, Inhabited

/-- The struct `StoreRequest`. -/
structure StoreRequest where
  table_name : String
  primary_key : String
  timestamp : String
  data : String
  index_list : List Index
  deriving DecidableEq, Repr, Inhabited

/-- Modelled from the spec: the struct `StoreResponse` is declared outside
`db_impl.cc`. The spec asks of it to tell full success from aggregated
failure, with the first error: `error = none` reports success, `error = some e`
reports failure with cause `e`. -/
structure StoreResponse where
  error : Option String := none
  deriving DecidableEq, Repr, Inhabited

/-- A row mutation as `Put` builds it: the table it was created on by
`NewRowMutation(row_key)` and the cell set by `Put(family, qualifier, value)`.
Every row `Put` builds carries the shared context and `PutCallback`. -/
structure RowMutation where
  table : Table
  row_key : String
  family : String
  qualifier : String
  value : String
  deriving DecidableEq, Repr, Inhabited

/-- The struct `PutContext`: the request, the response object and the
completion counter. The user callback `callback_` is not stored: its
invocations are recorded in the state. -/
structure PutContext where
  req_ : StoreRequest
  resp_ : StoreResponse
  counter_ : Int
  deriving DecidableEq, Repr

/-- Modelled from the spec: the constructor of `PutContext` and its `Counter`
are declared outside `db_impl.cc`. A new counter holds 0; `Inc` and `Dec` are
atomic and `Dec` returns the value it leaves, so that `Dec() == 0` is the
decrement that observes the counter reach zero. -/
def PutContext.new (req : StoreRequest) (resp : StoreResponse) : PutContext :=
  { req_ := req, resp_ := resp, counter_ := 0 }

/-- The call `context->counter_.Inc()`. -/
def PutContext.Inc (context : PutContext) : PutContext :=
  { context with counter_ := context.counter_ + 1 }

/-- The call `context->counter_.Dec()`: the context after it and the value
returned. -/
def PutContext.Dec (context : PutContext) : PutContext × Int :=
  ({ context with counter_ := context.counter_ - 1 }, context.counter_ - 1)

/-- The program points of `TableImpl::Put`. Statements that touch only local
variables are executed together with the next statement that touches the
shared context or the table service. -/
inductive PutPc where
  /-- Before line 152. -/
  | start
  /-- Before line 162, the context created and its counter raised once. -/
  | primaryInc
  /-- Before line 169, `primary_row` built and counted. -/
  | primaryApply (primary_row : RowMutation)
  /-- Before line 176 for the entry `it`, with `rest` still to visit. -/
  | indexInc (it : Index) (rest : List Index)
  /-- Before line 183, `index_row` built and counted. -/
  | indexApply (index_row : RowMutation) (rest : List Index)
  /-- Before line 187, the loop left. -/
  | finalDec
  /-- After line 192. -/
  | returned
  /-- The program stopped: `GetDataWriter` used the dangling reference (line
  153), or a null table handle was dereferenced (line 165 or 179). -/
  | crashed
  deriving DecidableEq, Repr

/-- The state of one call of `Put` together with the completions of its
mutations. -/
structure PutState where
  /-- The table `*this`. -/
  self : TableImpl
  /-- The argument `req`. -/
  req : StoreRequest
  /-- The object `*resp`. -/
  resp : StoreResponse
  pc : PutPc := PutPc.start
  /-- The local `location`. -/
  location : FileLocation := {}
  /-- The object `*context`: `none` before `new` and after `delete`. -/
  context : Option PutContext := none
  /-- Whether `delete context` was executed. -/
  deleted : Bool := false
  /-- Whether a deleted (or not yet created) context was accessed. -/
  use_after_delete : Bool := false
  /-- The rows handed to `ApplyMutation`, in order. -/
  applied : List RowMutation := []
  /-- The completions delivered so far, in order: the position of the row in
  `applied` and the error the table service reports for it (`none`: success). -/
  completed : List (Nat × Option String) := []
  /-- The invocations of the user callback, with their arguments. -/
  callbacks : List (StoreRequest × StoreResponse) := []
  /-- The number of `Inc` calls `Put` has executed. -/
  incs : Nat := 0
  /-- The value `Put` returned. -/
  ret : Option Int := none

/-- The program point at the head of the loop of lines 173-185 with `l` still
to visit. -/
def loopHead (l : List Index) : PutPc :=
  match l with
  | [] => PutPc.finalDec
  | it :: rest => PutPc.indexInc it rest

/-- Lines 162-167: the primary row, or `none` when `GetTable` returns null and
line 165 dereferences it. -/
def primaryRow (self : TableImpl) (req : StoreRequest) (location : FileLocation) :
    Option RowMutation :=
  match self.GetTable req.table_name with
  | none => none
  | some primary_table =>
    let null_value := ""
    let primary_key := req.primary_key ++ req.timestamp
    some { table := primary_table, row_key := primary_key, family := "Location",
           qualifier := location.SerializeToString, value := null_value }

/-- Lines 176-181: the index row for `it`, or `none` when `GetTable` returns
null and line 179 dereferences it. -/
def indexRow (self : TableImpl) (req : StoreRequest) (it : Index) : Option RowMutation :=
  match self.GetTable it.index_name with
  | none => none
  | some index_table =>
    let null_value := ""
    let primary_key := req.primary_key ++ req.timestamp
    let index_key := it.index_key ++ req.timestamp
    some { table := index_table, row_key := index_key, family := "PrimaryKey",
           qualifier := primary_key, value := null_value }

/-- The block `if (context->counter_.Dec() == 0) { callback_(req_, resp_);
delete context; }` of lines 187-191 and of lines 197-200. -/
def decAndInvoke (s : PutState) : PutState :=
  match s.context with
  | none => { s with use_after_delete := true }
  | some context =>
    let (context, value) := context.Dec
    if value = 0 then
      { s with callbacks := s.callbacks ++ [(context.req_, context.resp_)],
               context := none, deleted := true }
    else
      { s with context := some context }

/-- The increment `context->counter_.Inc()` of lines 168 and 182. -/
def incContext (s : PutState) : PutState :=
  match s.context with
  | none => { s with use_after_delete := true }
  | some context => { s with context := some context.Inc, incs := s.incs + 1 }

/-- One step of `TableImpl::Put` (lines 150-193). -/
def putStep (s : PutState) : PutState :=
  match s.pc with
  | PutPc.start =>
    -- lines 152-159
    match s.self.GetDataWriter with
    | none => { s with pc := PutPc.crashed }
    | some (self, writer) =>
      let (_, location) := writer.AddRecord s.req.data {}
      let context := PutContext.new s.req s.resp
      let context := context.Inc
      { s with self := self, location := location, context := some context, incs := s.incs + 1,
               pc := PutPc.primaryInc }
  | PutPc.primaryInc =>
    -- lines 162-168
    match primaryRow s.self s.req s.location with
    | none => { s with pc := PutPc.crashed }
    | some primary_row => { incContext s with pc := PutPc.primaryApply primary_row }
  | PutPc.primaryApply primary_row =>
    -- lines 169-173
    { s with applied := s.applied ++ [primary_row], pc := loopHead s.req.index_list }
  | PutPc.indexInc it rest =>
    -- lines 176-182
    match indexRow s.self s.req it with
    | none => { s with pc := PutPc.crashed }
    | some index_row => { incContext s with pc := PutPc.indexApply index_row rest }
  | PutPc.indexApply index_row rest =>
    -- lines 183-184 and the loop head
    { s with applied := s.applied ++ [index_row], pc := loopHead rest }
  | PutPc.finalDec =>
    -- lines 187-192
    { decAndInvoke s with pc := PutPc.returned, ret := some 0 }
  | PutPc.returned => s
  | PutPc.crashed => s

/-- The function `PutCallback` (lines 195-201), called by the table service
for the row at position `k` of `applied` with completion status `status`. -/
def PutCallback (s : PutState) (k : Nat) (status : Option String) : PutState :=
  { decAndInvoke s with completed := s.completed ++ [(k, status)] }

/-- What can happen next: `Put` executes its next step, or the table service
completes the applied row at position `k` and calls `PutCallback` for it. -/
inductive Event where
  | put
  | done (k : Nat) (status : Option String)
  deriving DecidableEq, Repr

/-- One step of the system, `none` when the event cannot happen: `Put` steps
until it has returned or crashed; a row is completed once, after it was
applied, while the process is alive. -/
def step (e : Event) (s : PutState) : Option PutState :=
  match e with
  | Event.put =>
    if s.pc = PutPc.returned ∨ s.pc = PutPc.crashed then none else some (putStep s)
  | Event.done k status =>
    if s.pc ≠ PutPc.crashed ∧ k < s.applied.length ∧ k ∉ s.completed.map Prod.fst then
      some (PutCallback s k status)
    else none

/-- The state after the events `es`, in order. -/
def run (s : PutState) : List Event → Option PutState
  | [] => some s
  | e :: es =>
    match step e s with
    | none => none
    | some s => run s es

/-- The state in which `self.Put(req, resp, callback)` is entered. -/
def Put.enter (self : TableImpl) (req : StoreRequest) (resp : StoreResponse) : PutState :=
  { self := self, req := req, resp := resp }

/-- The schedule in which `Put` takes `n` steps and no completion arrives. -/
def putOnly (n : Nat) : List Event :=
  List.replicate n Event.put

/-- The schedule that completes the rows at positions `0 .. n-1` in order,
all with success. -/
def doneAll (n : Nat) : List Event :=
  (List.range n).map (fun k => Event.done k none)

/-- The number of mutations of a request: `1 + len(index_list)`. -/
def fanout (req : StoreRequest) : Nat :=
  1 + req.index_list.length

/-- The location `Put` holds after lines 152-154 on a table that holds a
writer (the default constructed one otherwise). -/
def appendLocation (self : TableImpl) (req : StoreRequest) : FileLocation :=
  match self.fs_.writer_ with
  | none => {}
  | some writer => (writer.AddRecord req.data {}).2

/-- The rows `Put` is to apply for the primary table and the entries `l`, in
order, each `none` when its table handle is null. -/
def rows (self : TableImpl) (req : StoreRequest) (l : List Index) : List (Option RowMutation) :=
  primaryRow self req (appendLocation self req) :: l.map (indexRow self req)

/-! ## A concrete database

The table `T` with one index `by_name` in the database `db`. -/

/-- A value log whose appends succeed when `ok` and fail otherwise. -/
def demoWriter (ok : Bool) (fname : String) : DataWriter :=
  { fname := fname,
    AddRecord := fun data location =>
      if ok then (true, { SerializeToString := fname ++ ":" ++ data }) else (false, location) }

/-- An environment whose value log works when `ok`. -/
def demoEnv (ok : Bool) : Env :=
  { NewDataWriter := demoWriter ok }

/-- A client that opens every table. -/
def demoClient : Client :=
  { OpenTable := fun name => some { name := name } }

/-- The description of table `T`. -/
def demoDesc : TableDescription :=
  { table_name := "T", primary_key_type := 1,
    index_descriptor_list := [{ index_name := "by_name", index_key_type := 1 }] }

/-- The table `T` as the constructor builds it from a filesystem adapter
without a writer. -/
def demoTableNoWriter : TableImpl :=
  TableImpl.new demoDesc
    { opt_ := { root_path_ := "db/Tera/", tera_flag_ := "", client_ := demoClient },
      table_prefix_ := "db" }
    { root_path_ := "db/Filesystem//T/", env_ := demoEnv true }

/-- The table `T` as the constructor builds it from a filesystem adapter that
holds the writer of the file `db/Filesystem//T//0.data`. -/
def demoTable (ok : Bool) : TableImpl :=
  TableImpl.new demoDesc
    { opt_ := { root_path_ := "db/Tera/", tera_flag_ := "", client_ := demoClient },
      table_prefix_ := "db" }
    { root_path_ := "db/Filesystem//T/", env_ := demoEnv ok,
      writer_ := some (demoWriter ok "db/Filesystem//T//0.data") }

/-- The request of the scenario. -/
def demoReq : StoreRequest :=
  { table_name := "T", primary_key := "pk1", timestamp := "t1", data := "hello",
    index_list := [{ index_name := "by_name", index_key := "alice" }] }

/-- An empty database `db`. -/
def demoDb : DatabaseImpl :=
  { env_ := demoEnv true, db_name_ := "db", fs_opt_ := { fs_path_ := "db/Filesystem/" },
    tera_opt_ := { root_path_ := "db/Tera/", tera_flag_ := "", client_ := demoClient } }

/-- A schedule of the scenario in which the completion of the primary row
runs before the index row is dispatched and the completion of the index row
runs before the last decrement of `Put`. -/
def demoSchedule : List Event :=
  putOnly 3 ++ [Event.done 0 none] ++ putOnly 2 ++ [Event.done 1 none] ++ putOnly 1

/-- The state of the scenario after `es`; the entry state if `es` cannot
happen. -/
def demoState (es : List Event) : PutState :=
  (run (Put.enter (demoTable true) demoReq {}) es).getD (Put.enter (demoTable true) demoReq {})

/-- The request of the scenario without index entries. -/
def demoReqNoIndex : StoreRequest :=
  { demoReq with index_list := [] }

/-- The request of the scenario followed by an entry for the index `nope`,
which table `T` does not have. -/
def demoReqUnknown : StoreRequest :=
  { demoReq with index_list := demoReq.index_list ++ [{ index_name := "nope", index_key := "x" }] }

/-- The request that creates table `T` in `db`. -/
def demoCreate : CreateRequest :=
  { db_name := "db", table_descriptor_list := [demoDesc] }

/-- The primary row of the scenario. -/
def demoPrimaryRow : RowMutation :=
  { table := { name := "db#T" }, row_key := "pk1t1", family := "Location",
    qualifier := "db/Filesystem//T//0.data:hello", value := "" }

/-- The index row of the scenario. -/
def demoIndexRow : RowMutation :=
  { table := { name := "db#by_name" }, row_key := "alicet1", family := "PrimaryKey",
    qualifier := "pk1t1", value := "" }

/-! ## The invariant of the fan-in protocol -/

/-- While `Put` holds its own count: the context is alive, its counter is
1 for `Put`, plus `p` for a row counted and not yet applied, plus one for each
applied row that has not completed; no callback was invoked. -/
def Live (self : TableImpl) (req : StoreRequest) (resp : StoreResponse) (p : Int)
    (s : PutState) : Prop :=
  s.context = some { req_ := req, resp_ := resp,
                     counter_ := 1 + p + s.applied.length - s.completed.length } ∧
  s.callbacks = [] ∧ s.deleted = false ∧ s.ret = none ∧
  s.location = appendLocation self req

/-- What holds at each program point of `Put`. -/
def AtPc (self : TableImpl) (req : StoreRequest) (resp : StoreResponse) (s : PutState) :
    PutPc → Prop
  | PutPc.start =>
    s.self = self ∧ s.context = none ∧ s.applied = [] ∧ s.callbacks = [] ∧
    s.deleted = false ∧ s.incs = 0 ∧ s.ret = none
  | PutPc.primaryInc =>
    Live self req resp 0 s ∧ s.applied = [] ∧ s.incs = 1
  | PutPc.primaryApply primary_row =>
    Live self req resp 1 s ∧ s.applied = [] ∧ s.incs = 2 ∧
    primaryRow self req (appendLocation self req) = some primary_row
  | PutPc.indexInc it rest =>
    Live self req resp 0 s ∧
    ∃ pre, req.index_list = pre ++ it :: rest ∧ s.applied.map some = rows self req pre ∧
      s.incs = 2 + pre.length
  | PutPc.indexApply index_row rest =>
    Live self req resp 1 s ∧
    ∃ pre it, req.index_list = pre ++ it :: rest ∧ s.applied.map some = rows self req pre ∧
      indexRow self req it = some index_row ∧ s.incs = 3 + pre.length
  | PutPc.finalDec =>
    Live self req resp 0 s ∧ s.applied.map some = rows self req req.index_list ∧
    s.incs = 2 + req.index_list.length
  | PutPc.returned =>
    s.location = appendLocation self req ∧
    s.applied.map some = rows self req req.index_list ∧
    s.incs = 2 + req.index_list.length ∧ s.ret = some 0 ∧
    ((s.completed.length = s.applied.length ∧ s.context = none ∧ s.deleted = true ∧
        s.callbacks = [(req, resp)]) ∨
     (s.completed.length < s.applied.length ∧
        s.context = some { req_ := req, resp_ := resp,
                           counter_ := s.applied.length - s.completed.length } ∧
        s.deleted = false ∧ s.callbacks = []))
  | PutPc.crashed =>
    (self.fs_.writer_ = none ∧ s.context = none ∧ s.applied = [] ∧ s.callbacks = [] ∧
      s.deleted = false ∧ s.incs = 0 ∧ s.ret = none) ∨
    (Live self req resp 0 s ∧
      ((primaryRow self req (appendLocation self req) = none ∧ s.applied = []) ∨
       ∃ pre it rest, req.index_list = pre ++ it :: rest ∧ indexRow self req it = none ∧
         s.applied.map some = rows self req pre))

/-- The invariant of every state reachable from `Put.enter self req resp`. -/
structure Inv (self : TableImpl) (req : StoreRequest) (resp : StoreResponse)
    (s : PutState) : Prop where
  req_eq : s.req = req
  resp_eq : s.resp = resp
  tera_eq : s.self.tera_ = self.tera_
  nodup : (s.completed.map Prod.fst).Nodup
  bound : ∀ k ∈ s.completed.map Prod.fst, k < s.applied.length
  clean : s.use_after_delete = false
  at_pc : AtPc self req resp s s.pc

/-! # Theorems -/

/-! ## Schema assembly -/

theorem assemble_loop (l : List IndexDescription) (schema : BigQueryTableSchema) :
    l.foldl AssembleTableSchema.body schema =
      { schema with
        index_descriptor_list :=
          schema.index_descriptor_list ++ l.map IndexDescription.toSchema } := by
  induction l generalizing schema with
  | nil => simp
  | cons d l ih =>
    simp [ih, AssembleTableSchema.body, BigQueryTableSchema.add_index_descriptor_list,
      IndexDescription.toSchema]

theorem assemble_empty (td : TableDescription) :
    (AssembleTableSchema td {}).2 =
      { table_name := td.table_name,
        primary_key_type := td.primary_key_type,
        index_descriptor_list := td.index_descriptor_list.map IndexDescription.toSchema } := by
  simp [AssembleTableSchema, assemble_loop]

/-! ## Reachable states of `Put` -/

theorem length_le_of_nodup_bound (l : List Nat) (n : Nat) (hn : l.Nodup)
    (hb : ∀ k ∈ l, k < n) : l.length ≤ n := by
  have hsub : l ⊆ List.range n := fun k hk => List.mem_range.mpr (hb k hk)
  have := (List.Nodup.subperm hn hsub).length_le
  simpa using this

theorem primaryRow_congr {a b : TableImpl} (h : a.tera_ = b.tera_) (req : StoreRequest)
    (loc : FileLocation) : primaryRow a req loc = primaryRow b req loc := by
  simp [primaryRow, TableImpl.GetTable, h]

theorem indexRow_congr {a b : TableImpl} (h : a.tera_ = b.tera_) (req : StoreRequest)
    (it : Index) : indexRow a req it = indexRow b req it := by
  simp [indexRow, TableImpl.GetTable, h]

theorem getDataWriter_some {self self2 : TableImpl} {writer : DataWriter}
    (h : self.GetDataWriter = some (self2, writer)) :
    self2 = self ∧ self.fs_.writer_ = some writer := by
  unfold TableImpl.GetDataWriter at h
  split at h
  · cases h
  next w hw =>
    cases h
    exact ⟨rfl, hw⟩

theorem getDataWriter_none {self : TableImpl} (h : self.GetDataWriter = none) :
    self.fs_.writer_ = none := by
  unfold TableImpl.GetDataWriter at h
  split at h
  next hw => exact hw
  · cases h

theorem inv_enter (self : TableImpl) (req : StoreRequest) (resp : StoreResponse) :
    Inv self req resp (Put.enter self req resp) := by
  refine ⟨rfl, rfl, rfl, ?_, ?_, rfl, ?_⟩
  · simp [Put.enter]
  · simp [Put.enter]
  · simp [Put.enter, AtPc]

theorem rows_length (self : TableImpl) (req : StoreRequest) (l : List Index) :
    (rows self req l).length = 1 + l.length := by
  simp [rows]; omega

theorem rows_snoc (self : TableImpl) (req : StoreRequest) (l : List Index) (it : Index) :
    rows self req (l ++ [it]) = rows self req l ++ [indexRow self req it] := by
  simp [rows]

theorem loopHead_inv {self : TableImpl} {req : StoreRequest} {resp : StoreResponse}
    {s : PutState} (pre rest : List Index) (hl : req.index_list = pre ++ rest)
    (hlive : Live self req resp 0 s) (happ : s.applied.map some = rows self req pre)
    (hincs : s.incs = 2 + pre.length) :
    AtPc self req resp s (loopHead rest) := by
  cases rest with
  | nil =>
    simp only [List.append_nil] at hl
    simp [loopHead, AtPc, hlive, hl, happ, hincs]
  | cons it rest =>
    simp only [loopHead, AtPc]
    exact ⟨hlive, pre, hl, happ, hincs⟩

theorem decAndInvoke_last {s : PutState} {req : StoreRequest} {resp : StoreResponse} {n : Int}
    (hctx : s.context = some { req_ := req, resp_ := resp, counter_ := n }) (hn : n = 1) :
    decAndInvoke s =
      { s with callbacks := s.callbacks ++ [(req, resp)], context := none, deleted := true } := by
  simp [decAndInvoke, hctx, PutContext.Dec, hn]

theorem decAndInvoke_more {s : PutState} {req : StoreRequest} {resp : StoreResponse} {n : Int}
    (hctx : s.context = some { req_ := req, resp_ := resp, counter_ := n }) (hn : n ≠ 1) :
    decAndInvoke s =
      { s with context := some { req_ := req, resp_ := resp, counter_ := n - 1 } } := by
  have : n - 1 ≠ 0 := by omega
  simp [decAndInvoke, hctx, PutContext.Dec, this]

theorem inv_putStep {self : TableImpl} {req : StoreRequest} {resp : StoreResponse}
    {s : PutState} (h : Inv self req resp s) : Inv self req resp (putStep s) := by
  obtain ⟨hreq, hresp, htera, hnd, hbd, hcl, hpc⟩ := h
  have hlen := length_le_of_nodup_bound _ _ hnd hbd
  simp only [List.length_map] at hlen
  unfold putStep
  split
  next hp =>
    -- start
    rw [hp] at hpc
    obtain ⟨hself, hctx, happ, hcb, hdel, hincs, hret⟩ := hpc
    have hc0 : s.completed = [] := by
      have := hlen; rw [happ] at this; simpa using this
    split
    next hgw =>
      rw [hself] at hgw
      refine ⟨hreq, hresp, htera, hnd, hbd, hcl, ?_⟩
      simp only [AtPc]
      exact Or.inl ⟨getDataWriter_none hgw, hctx, happ, hcb, hdel, hincs, hret⟩
    next self2 writer hgw =>
      obtain ⟨hself2, hw⟩ := getDataWriter_some hgw
      rw [hself] at hw
      refine ⟨hreq, hresp, ?_, hnd, hbd, hcl, ?_⟩
      · simp [hself2, htera]
      · simp [AtPc, Live, PutContext.new, PutContext.Inc, hreq, hresp, happ, hc0, hcb, hdel,
          hincs, hret, appendLocation, hw]
  next hp =>
    -- primaryInc
    rw [hp] at hpc
    obtain ⟨⟨hctx, hcb, hdel, hret, hloc⟩, happ, hincs⟩ := hpc
    have hrw : primaryRow s.self s.req s.location
        = primaryRow self req (appendLocation self req) := by
      rw [primaryRow_congr htera, hreq, hloc]
    split
    next hrow =>
      rw [hrw] at hrow
      refine ⟨hreq, hresp, htera, hnd, hbd, hcl, ?_⟩
      simp only [AtPc]
      exact Or.inr ⟨⟨hctx, hcb, hdel, hret, hloc⟩, Or.inl ⟨hrow, happ⟩⟩
    next row hrow =>
      rw [hrw] at hrow
      have hc0 : s.completed = [] := by
        have := hlen; rw [happ] at this; simpa using this
      refine ⟨?_, ?_, ?_, ?_, ?_, ?_, ?_⟩
      · simp [incContext, hctx, hreq]
      · simp [incContext, hctx, hresp]
      · simp [incContext, hctx, htera]
      · simp [incContext, hctx, hnd]
      · simpa [incContext, hctx] using hbd
      · simp [incContext, hctx, hcl]
      · simp [incContext, hctx, AtPc, Live, PutContext.Inc, hcb, hdel, hret, hloc, happ, hrow,
          hincs, hc0]
  next row hp =>
    -- primaryApply
    rw [hp] at hpc
    obtain ⟨⟨hctx, hcb, hdel, hret, hloc⟩, happ, hincs, hrow⟩ := hpc
    refine ⟨hreq, hresp, htera, hnd, ?_, hcl, ?_⟩
    · intro k hk
      have := hbd k hk
      simp; omega
    · simp only [hreq]
      apply loopHead_inv [] req.index_list (by simp)
      · simp [Live, hctx, hcb, hdel, hret, hloc, happ]
      · simp [happ, rows, hrow]
      · simp [hincs]
  next it rest hp =>
    -- indexInc
    rw [hp] at hpc
    obtain ⟨⟨hctx, hcb, hdel, hret, hloc⟩, pre, hl, happ, hincs⟩ := hpc
    have hrw : indexRow s.self s.req it = indexRow self req it := by
      rw [indexRow_congr htera, hreq]
    split
    next hrow =>
      rw [hrw] at hrow
      refine ⟨hreq, hresp, htera, hnd, hbd, hcl, ?_⟩
      simp only [AtPc]
      exact Or.inr ⟨⟨hctx, hcb, hdel, hret, hloc⟩, Or.inr ⟨pre, it, rest, hl, hrow, happ⟩⟩
    next row hrow =>
      rw [hrw] at hrow
      refine ⟨?_, ?_, ?_, ?_, ?_, ?_, ?_⟩
      · simp [incContext, hctx, hreq]
      · simp [incContext, hctx, hresp]
      · simp [incContext, hctx, htera]
      · simp [incContext, hctx, hnd]
      · simpa [incContext, hctx] using hbd
      · simp [incContext, hctx, hcl]
      · simp only [incContext, hctx, AtPc]
        refine ⟨⟨?_, hcb, hdel, hret, hloc⟩, pre, it, hl, happ, hrow, ?_⟩
        · simp [PutContext.Inc]; omega
        · simp [hincs]; omega
  next row rest hp =>
    -- indexApply
    rw [hp] at hpc
    obtain ⟨⟨hctx, hcb, hdel, hret, hloc⟩, pre, it, hl, happ, hrow, hincs⟩ := hpc
    refine ⟨hreq, hresp, htera, hnd, ?_, hcl, ?_⟩
    · intro k hk
      have := hbd k hk
      simp; omega
    · apply loopHead_inv (pre ++ [it]) rest (by simp [hl])
      · simp [Live, hctx, hcb, hdel, hret, hloc]; omega
      · simp [happ, rows_snoc, hrow]
      · simp [hincs]; omega
  next hp =>
    -- finalDec
    rw [hp] at hpc
    obtain ⟨⟨hctx, hcb, hdel, hret, hloc⟩, happ, hincs⟩ := hpc
    by_cases hz : s.completed.length = s.applied.length
    · rw [decAndInvoke_last hctx (by omega)]
      refine ⟨hreq, hresp, htera, hnd, hbd, hcl, ?_⟩
      simp [AtPc, happ, hincs, hcb, hz, hloc]
    · rw [decAndInvoke_more hctx (by omega)]
      refine ⟨hreq, hresp, htera, hnd, hbd, hcl, ?_⟩
      simp only [AtPc]
      refine ⟨hloc, happ, hincs, trivial, Or.inr ⟨by omega, ?_, hdel, hcb⟩⟩
      simp
      omega
  next hp => exact ⟨hreq, hresp, htera, hnd, hbd, hcl, hpc⟩
  next hp => exact ⟨hreq, hresp, htera, hnd, hbd, hcl, hpc⟩

theorem inv_PutCallback {self : TableImpl} {req : StoreRequest} {resp : StoreResponse}
    {s : PutState} (h : Inv self req resp s) (k : Nat) (status : Option String)
    (hpc0 : s.pc ≠ PutPc.crashed) (hk : k < s.applied.length)
    (hnew : k ∉ s.completed.map Prod.fst) :
    Inv self req resp (PutCallback s k status) := by
  obtain ⟨hreq, hresp, htera, hnd, hbd, hcl, hpc⟩ := h
  have hnd2 : ((s.completed ++ [(k, status)]).map Prod.fst).Nodup := by
    simp only [List.map_append, List.map_cons, List.map_nil]
    rw [List.nodup_append]
    refine ⟨hnd, by simp, ?_⟩
    intro a ha hb
    simp only [List.mem_singleton] at hb
    subst hb
    exact hnew ha
  have hbd2 : ∀ j ∈ (s.completed ++ [(k, status)]).map Prod.fst, j < s.applied.length := by
    intro j hj
    simp only [List.map_append, List.map_cons, List.map_nil, List.mem_append,
      List.mem_singleton] at hj
    rcases hj with hj | hj
    · exact hbd j hj
    · omega
  have hlen := length_le_of_nodup_bound _ _ hnd2 hbd2
  simp only [List.length_map, List.length_append, List.length_singleton] at hlen
  -- the context is alive with a counter above 1, or `Put` has returned
  have key : ∀ p : Int, 0 ≤ p → Live self req resp p s →
      decAndInvoke s =
        { s with context := some ⟨req, resp, 1 + p + s.applied.length - s.completed.length - 1⟩ } := by
    intro p hp hl
    exact decAndInvoke_more hl.1 (by omega)
  have live : ∀ p : Int, 0 ≤ p → Live self req resp p s →
      Live self req resp p { decAndInvoke s with completed := s.completed ++ [(k, status)] } := by
    intro p hp hl
    rw [key p hp hl]
    obtain ⟨-, hcb, hdel, hret, hloc⟩ := hl
    refine ⟨?_, hcb, hdel, hret, hloc⟩
    simp
    omega
  unfold PutCallback
  cases hp : s.pc with
  | start =>
    rw [hp] at hpc
    rw [hpc.2.2.1] at hk
    simp at hk
  | primaryInc =>
    rw [hp] at hpc
    rw [hpc.2.1] at hk
    simp at hk
  | primaryApply row =>
    rw [hp] at hpc
    rw [hpc.2.1] at hk
    simp at hk
  | indexInc it rest =>
    rw [hp] at hpc
    obtain ⟨hl, hrest⟩ := hpc
    have hl2 := live 0 (le_refl _) hl
    rw [key 0 (le_refl _) hl] at hl2 ⊢
    refine ⟨hreq, hresp, htera, hnd2, hbd2, hcl, ?_⟩
    simp only [hp, AtPc]
    exact ⟨hl2, hrest⟩
  | indexApply row rest =>
    rw [hp] at hpc
    obtain ⟨hl, hrest⟩ := hpc
    have hl2 := live 1 (by omega) hl
    rw [key 1 (by omega) hl] at hl2 ⊢
    refine ⟨hreq, hresp, htera, hnd2, hbd2, hcl, ?_⟩
    simp only [hp, AtPc]
    exact ⟨hl2, hrest⟩
  | finalDec =>
    rw [hp] at hpc
    obtain ⟨hl, hrest⟩ := hpc
    have hl2 := live 0 (le_refl _) hl
    rw [key 0 (le_refl _) hl] at hl2 ⊢
    refine ⟨hreq, hresp, htera, hnd2, hbd2, hcl, ?_⟩
    simp only [hp, AtPc]
    exact ⟨hl2, hrest⟩
  | crashed => exact absurd hp hpc0
  | returned =>
    rw [hp] at hpc
    obtain ⟨hloc, happ, hincs, hret, hor⟩ := hpc
    rcases hor with ⟨hc, -⟩ | ⟨hlt, hctx, hdel, hcb⟩
    · omega
    · by_cases hz : s.completed.length + 1 = s.applied.length
      · rw [decAndInvoke_last hctx (by omega)]
        refine ⟨hreq, hresp, htera, hnd2, hbd2, hcl, ?_⟩
        simp [hp, AtPc, happ, hincs, hret, hcb, hz, hloc]
      · rw [decAndInvoke_more hctx (by omega)]
        refine ⟨hreq, hresp, htera, hnd2, hbd2, hcl, ?_⟩
        simp only [hp, AtPc]
        refine ⟨hloc, happ, hincs, hret, Or.inr ⟨?_, ?_, hdel, hcb⟩⟩
        · simp; omega
        · simp; omega

theorem inv_step {self : TableImpl} {req : StoreRequest} {resp : StoreResponse}
    {s s2 : PutState} (e : Event) (h : Inv self req resp s) (hs : step e s = some s2) :
    Inv self req resp s2 := by
  cases e with
  | put =>
    simp only [step] at hs
    split at hs
    · cases hs
    · cases hs
      exact inv_putStep h
  | done k status =>
    simp only [step] at hs
    split at hs
    next hc =>
      cases hs
      exact inv_PutCallback h k status hc.1 hc.2.1 hc.2.2
    next => cases hs

theorem inv_run {self : TableImpl} {req : StoreRequest} {resp : StoreResponse}
    (es : List Event) : ∀ {s s2 : PutState}, Inv self req resp s → run s es = some s2 →
    Inv self req resp s2 := by
  induction es with
  | nil =>
    intro s s2 h hs
    simp only [run] at hs
    cases hs
    exact h
  | cons e es ih =>
    intro s s2 h hs
    simp only [run] at hs
    split at hs
    · cases hs
    next s1 h1 => exact ih (inv_step e h h1) hs

theorem inv_reachable {self : TableImpl} {req : StoreRequest} {resp : StoreResponse}
    {es : List Event} {s : PutState} (hs : run (Put.enter self req resp) es = some s) :
    Inv self req resp s :=
  inv_run es (inv_enter self req resp) hs

/-! ## `Put` running on its own -/

theorem run_append (es1 es2 : List Event) : ∀ s : PutState,
    run s (es1 ++ es2) = (run s es1).bind (fun s1 => run s1 es2) := by
  induction es1 with
  | nil => intro s; rfl
  | cons e es1 ih =>
    intro s
    simp only [List.cons_append, run]
    cases step e s with
    | none => rfl
    | some s1 => exact ih s1

theorem putOnly_add (a b : Nat) : putOnly (a + b) = putOnly a ++ putOnly b := by
  unfold putOnly
  exact List.replicate_add a b Event.put

theorem step_put (s : PutState) (h1 : s.pc ≠ PutPc.returned) (h2 : s.pc ≠ PutPc.crashed) :
    step Event.put s = some (putStep s) := by
  unfold step
  rw [if_neg]
  rintro (h | h)
  · exact h1 h
  · exact h2 h

theorem run_put_cons (s : PutState) (es : List Event) (h1 : s.pc ≠ PutPc.returned)
    (h2 : s.pc ≠ PutPc.crashed) : run s (Event.put :: es) = run (putStep s) es := by
  simp only [run, step_put s h1 h2]

theorem primaryRow_isSome {self : TableImpl} {req : StoreRequest} {loc : FileLocation}
    (h : (self.GetTable req.table_name).isSome = true) :
    ∃ row, primaryRow self req loc = some row := by
  obtain ⟨table, htable⟩ := Option.isSome_iff_exists.mp h
  simp [primaryRow, htable]

theorem indexRow_isSome {self : TableImpl} {req : StoreRequest} {it : Index}
    (h : (self.GetTable it.index_name).isSome = true) :
    ∃ row, indexRow self req it = some row := by
  obtain ⟨table, htable⟩ := Option.isSome_iff_exists.mp h
  simp [indexRow, htable]

theorem putStep_start (s : PutState) (hpc : s.pc = PutPc.start)
    (hw : s.self.fs_.writer_.isSome = true) :
    (putStep s).pc = PutPc.primaryInc ∧ (putStep s).req = s.req ∧
    (putStep s).self.tera_ = s.self.tera_ := by
  obtain ⟨writer, hwriter⟩ := Option.isSome_iff_exists.mp hw
  have hgw : s.self.GetDataWriter = some (s.self, writer) := by
    simp [TableImpl.GetDataWriter, hwriter]
  unfold putStep
  simp only [hpc, hgw, and_self]

theorem putStep_primaryInc (s : PutState) (hpc : s.pc = PutPc.primaryInc)
    (row : RowMutation) (hrow : primaryRow s.self s.req s.location = some row) :
    putStep s = { incContext s with pc := PutPc.primaryApply row } := by
  unfold putStep
  simp only [hpc, hrow]

theorem putStep_primaryApply (s : PutState) (row : RowMutation)
    (hpc : s.pc = PutPc.primaryApply row) :
    putStep s = { s with applied := s.applied ++ [row], pc := loopHead s.req.index_list } := by
  unfold putStep
  simp only [hpc]

theorem putStep_indexInc (s : PutState) (it : Index) (rest : List Index)
    (hpc : s.pc = PutPc.indexInc it rest)
    (row : RowMutation) (hrow : indexRow s.self s.req it = some row) :
    putStep s = { incContext s with pc := PutPc.indexApply row rest } := by
  unfold putStep
  simp only [hpc, hrow]

theorem putStep_indexApply (s : PutState) (row : RowMutation) (rest : List Index)
    (hpc : s.pc = PutPc.indexApply row rest) :
    putStep s = { s with applied := s.applied ++ [row], pc := loopHead rest } := by
  unfold putStep
  simp only [hpc]

theorem putStep_finalDec (s : PutState) (hpc : s.pc = PutPc.finalDec) :
    putStep s = { decAndInvoke s with pc := PutPc.returned, ret := some 0 } := by
  unfold putStep
  simp only [hpc]

theorem incContext_self (s : PutState) : (incContext s).self = s.self ∧
    (incContext s).req = s.req := by
  unfold incContext
  split <;> exact ⟨rfl, rfl⟩

/-- From the head of the loop, `Put` visits the entries `pre` whose tables
resolve in `2 * pre.length` steps. -/
theorem run_loop (pre rest : List Index) : ∀ s : PutState, s.pc = loopHead (pre ++ rest) →
    (∀ it ∈ pre, (s.self.GetTable it.index_name).isSome = true) →
    ∃ s2, run s (putOnly (2 * pre.length)) = some s2 ∧ s2.pc = loopHead rest ∧
      s2.self = s.self ∧ s2.req = s.req := by
  induction pre with
  | nil =>
    intro s hpc _
    exact ⟨s, rfl, by simpa using hpc, rfl, rfl⟩
  | cons it pre ih =>
    intro s hpc hres
    obtain ⟨row, hrow⟩ := @indexRow_isSome s.self s.req it (hres it (by simp))
    simp only [List.cons_append, loopHead] at hpc
    have hlen : 2 * (it :: pre).length = 2 * pre.length + 1 + 1 := by
      simp only [List.length_cons]; omega
    rw [hlen]
    simp only [putOnly, List.replicate_succ]
    rw [run_put_cons s _ (by simp [hpc]) (by simp [hpc]),
      putStep_indexInc s it _ hpc row hrow]
    rw [run_put_cons _ _ (by simp) (by simp), putStep_indexApply _ row (pre ++ rest) rfl]
    obtain ⟨hs1, hs2⟩ := incContext_self s
    obtain ⟨s2, hrun, hpc2, hself, hreq⟩ := ih
      { ({ incContext s with pc := PutPc.indexApply row (pre ++ rest) } : PutState) with
        applied := (incContext s).applied ++ [row], pc := loopHead (pre ++ rest) } rfl
      (by
        intro it2 hit2
        simp only [hs1]
        exact hres it2 (by simp [hit2]))
    refine ⟨s2, hrun, hpc2, ?_, ?_⟩
    · rw [hself]; exact hs1
    · rw [hreq]; exact hs2

/-- The first three steps of `Put` when the primary table resolves. -/
theorem run_head (self : TableImpl) (req : StoreRequest) (resp : StoreResponse)
    (hw : self.fs_.writer_.isSome = true)
    (h : (self.GetTable req.table_name).isSome = true) :
    ∃ s, run (Put.enter self req resp) (putOnly 3) = some s ∧ s.pc = loopHead req.index_list ∧
      s.self.tera_ = self.tera_ ∧ s.req = req := by
  obtain ⟨h0pc, h0req, h0tera⟩ := putStep_start (Put.enter self req resp) rfl hw
  have hloc : ∀ loc, ∃ row, primaryRow (putStep (Put.enter self req resp)).self
      (putStep (Put.enter self req resp)).req loc = some row := by
    intro loc
    rw [primaryRow_congr h0tera, h0req]
    exact primaryRow_isSome h
  obtain ⟨row, hrow⟩ := hloc (putStep (Put.enter self req resp)).location
  have h3 : putOnly 3 = [Event.put, Event.put, Event.put] := rfl
  rw [h3, run_put_cons _ _ (by simp [Put.enter]) (by simp [Put.enter]),
    run_put_cons _ _ (by simp [h0pc]) (by simp [h0pc]),
    putStep_primaryInc _ h0pc row hrow,
    run_put_cons _ _ (by simp) (by simp), putStep_primaryApply _ row rfl]
  obtain ⟨hs1, hs2⟩ := incContext_self (putStep (Put.enter self req resp))
  refine ⟨_, rfl, ?_, ?_, ?_⟩
  · simp only [hs2, h0req]
    rfl
  · simp only [hs1, h0tera]
    rfl
  · simp only [hs2, h0req]
    rfl

/-- `Put` on its own reaches the head of the loop with `rest` still to visit
after `2 * pre.length + 3` steps, when the tables before `rest` resolve. -/
theorem run_prefix (self : TableImpl) (req : StoreRequest) (resp : StoreResponse)
    (pre rest : List Index) (hl : req.index_list = pre ++ rest)
    (hw : self.fs_.writer_.isSome = true)
    (hp : (self.GetTable req.table_name).isSome = true)
    (hi : ∀ it ∈ pre, (self.GetTable it.index_name).isSome = true) :
    ∃ s, run (Put.enter self req resp) (putOnly (2 * pre.length + 3)) = some s ∧
      s.pc = loopHead rest := by
  obtain ⟨s1, hrun1, hpc1, htera1, -⟩ := run_head self req resp hw hp
  rw [hl] at hpc1
  obtain ⟨s2, hrun2, hpc2, -, -⟩ := run_loop pre rest s1 hpc1 (by
    intro it hit
    have := hi it hit
    simpa [TableImpl.GetTable, htera1] using this)
  refine ⟨s2, ?_, hpc2⟩
  rw [Nat.add_comm, putOnly_add, run_append, hrun1]
  exact hrun2

/-- `Put` on its own returns after `2 * fanout req + 2` steps when all its
tables resolve. -/
theorem run_complete (self : TableImpl) (req : StoreRequest) (resp : StoreResponse)
    (hw : self.fs_.writer_.isSome = true)
    (hp : (self.GetTable req.table_name).isSome = true)
    (hi : ∀ it ∈ req.index_list, (self.GetTable it.index_name).isSome = true) :
    ∃ s, run (Put.enter self req resp) (putOnly (2 * fanout req + 2)) = some s ∧
      s.pc = PutPc.returned := by
  obtain ⟨s1, hrun1, hpc1⟩ := run_prefix self req resp req.index_list [] (by simp) hw hp hi
  have hn : 2 * fanout req + 2 = (2 * req.index_list.length + 3) + 1 := by
    unfold fanout; omega
  have h1 : putOnly 1 = [Event.put] := rfl
  simp only [loopHead] at hpc1
  refine ⟨putStep s1, ?_, ?_⟩
  · rw [hn, putOnly_add, run_append, hrun1, h1]
    show run s1 [Event.put] = _
    rw [run_put_cons _ _ (by simp [hpc1]) (by simp [hpc1])]
    rfl
  · rw [putStep_finalDec s1 hpc1]

/-- The table, the row key and the cell of every row of `rows`, when the rows
are the applied ones. -/
theorem applied_cells (self : TableImpl) (req : StoreRequest) (l : List Index)
    (applied : List RowMutation) (h : applied.map some = rows self req l) :
    applied.map (fun r => (some r.table, r.row_key, r.family, r.qualifier, r.value)) =
      (self.GetTable req.table_name, req.primary_key ++ req.timestamp, "Location",
          (appendLocation self req).SerializeToString, "") ::
        l.map (fun it => (self.GetTable it.index_name, it.index_key ++ req.timestamp,
          "PrimaryKey", req.primary_key ++ req.timestamp, "")) := by
  have hp : ∀ (loc : FileLocation) (row : RowMutation), primaryRow self req loc = some row →
      (some row.table, row.row_key, row.family, row.qualifier, row.value) =
        (self.GetTable req.table_name, req.primary_key ++ req.timestamp, "Location",
          loc.SerializeToString, "") := by
    intro loc row hrow
    unfold primaryRow at hrow
    split at hrow
    · cases hrow
    next table htable =>
      cases hrow
      simp [htable]
  have hix : ∀ (it : Index) (row : RowMutation), indexRow self req it = some row →
      (some row.table, row.row_key, row.family, row.qualifier, row.value) =
        (self.GetTable it.index_name, it.index_key ++ req.timestamp, "PrimaryKey",
          req.primary_key ++ req.timestamp, "") := by
    intro it row hrow
    unfold indexRow at hrow
    split at hrow
    · cases hrow
    next table htable =>
      cases hrow
      simp [htable]
  unfold rows at h
  cases applied with
  | nil => simp at h
  | cons row applied =>
    simp only [List.map_cons, List.cons.injEq] at h ⊢
    refine ⟨hp _ row h.1.symm, ?_⟩
    have h2 := h.2
    clear h
    induction l generalizing applied with
    | nil =>
      simp only [List.map_nil, List.map_eq_nil_iff] at h2
      simp [h2]
    | cons it l ih =>
      cases applied with
      | nil => simp at h2
      | cons r applied =>
        simp only [List.map_cons, List.cons.injEq] at h2 ⊢
        exact ⟨hix it r h2.1.symm, ih applied h2.2⟩

/-- Every row of `rows` exists when the rows are the applied ones. -/
theorem applied_resolves (self : TableImpl) (req : StoreRequest) (l : List Index)
    (applied : List RowMutation) (h : applied.map some = rows self req l) :
    ∀ it ∈ l, indexRow self req it ≠ none := by
  intro it hit hnone
  have hmem : indexRow self req it ∈ rows self req l := by
    unfold rows
    exact List.mem_cons_of_mem _ (List.mem_map_of_mem _ hit)
  rw [← h, hnone] at hmem
  simp at hmem

theorem appendLocation_some {self : TableImpl} {writer : DataWriter} (req : StoreRequest)
    (hw : self.fs_.writer_ = some writer) :
    appendLocation self req = (writer.AddRecord req.data {}).2 := by
  simp [appendLocation, hw]

/-- Before `Put` has returned no callback was invoked and the context is not
deleted; the context does not exist yet, or the program stopped before it was
created, or its counter is at least 1. -/
theorem inv_not_returned {self : TableImpl} {req : StoreRequest} {resp : StoreResponse}
    {s : PutState} (h : Inv self req resp s) (hp : s.pc ≠ PutPc.returned) :
    s.callbacks = [] ∧ s.deleted = false ∧
    (((s.pc = PutPc.start ∨ s.pc = PutPc.crashed) ∧ s.context = none ∧ s.applied = []) ∨
     ∃ context, s.context = some context ∧ 1 ≤ context.counter_) := by
  obtain ⟨-, -, -, hnd, hbd, -, hpc⟩ := h
  have hlen := length_le_of_nodup_bound _ _ hnd hbd
  simp only [List.length_map] at hlen
  have live : ∀ p : Int, 0 ≤ p → Live self req resp p s →
      s.callbacks = [] ∧ s.deleted = false ∧
      (((s.pc = PutPc.start ∨ s.pc = PutPc.crashed) ∧ s.context = none ∧ s.applied = []) ∨
       ∃ context, s.context = some context ∧ 1 ≤ context.counter_) := by
    intro p hp0 hl
    obtain ⟨hctx, hcb, hdel, -, -⟩ := hl
    refine ⟨hcb, hdel, Or.inr ⟨_, hctx, ?_⟩⟩
    simp only
    omega
  cases hq : s.pc with
  | returned => exact absurd hq hp
  | start =>
    rw [hq] at hpc
    have := hpc
    exact ⟨hpc.2.2.2.1, hpc.2.2.2.2.1, Or.inl ⟨Or.inl rfl, hpc.2.1, hpc.2.2.1⟩⟩
  | primaryInc =>
    rw [hq] at hpc
    simpa [hq] using live 0 (le_refl _) hpc.1
  | primaryApply row =>
    rw [hq] at hpc
    simpa [hq] using live 1 (by omega) hpc.1
  | indexInc it rest =>
    rw [hq] at hpc
    simpa [hq] using live 0 (le_refl _) hpc.1
  | indexApply row rest =>
    rw [hq] at hpc
    simpa [hq] using live 1 (by omega) hpc.1
  | finalDec =>
    rw [hq] at hpc
    simpa [hq] using live 0 (le_refl _) hpc.1
  | crashed =>
    rw [hq] at hpc
    rcases hpc with ⟨-, hctx, happ, hcb, hdel, -⟩ | ⟨hl, -⟩
    · exact ⟨hcb, hdel, Or.inl ⟨Or.inr rfl, hctx, happ⟩⟩
    · have := live 0 (le_refl _) hl
      rw [hq] at this
      exact this

theorem applied_length (self : TableImpl) (req : StoreRequest) (l : List Index)
    (applied : List RowMutation) (h : applied.map some = rows self req l) :
    applied.length = 1 + l.length := by
  have := congrArg List.length h
  simpa [rows_length] using this

theorem decAndInvoke_frame (s : PutState) :
    (decAndInvoke s).applied = s.applied ∧ (decAndInvoke s).pc = s.pc ∧
    (decAndInvoke s).completed = s.completed := by
  unfold decAndInvoke
  split
  · exact ⟨rfl, rfl, rfl⟩
  · simp only [PutContext.Dec]
    split <;> exact ⟨rfl, rfl, rfl⟩

theorem incContext_completed (s : PutState) : (incContext s).completed = s.completed := by
  unfold incContext
  split <;> rfl

theorem putStep_completed (s : PutState) : (putStep s).completed = s.completed := by
  unfold putStep
  split
  · split <;> rfl
  · split
    · rfl
    · exact incContext_completed s
  · rfl
  · split
    · rfl
    · exact incContext_completed s
  · rfl
  · exact (decAndInvoke_frame s).2.2
  · rfl
  · rfl

theorem run_putOnly_completed (n : Nat) : ∀ s s2 : PutState, run s (putOnly n) = some s2 →
    s2.completed = s.completed := by
  induction n with
  | zero =>
    intro s s2 h
    cases h
    rfl
  | succ n ih =>
    intro s s2 h
    simp only [putOnly, List.replicate_succ, run] at h
    split at h
    · cases h
    next s1 h1 =>
      simp only [step] at h1
      split at h1
      · cases h1
      · cases h1
        rw [ih _ _ h, putStep_completed]

theorem doneAll_succ (k : Nat) : doneAll (k + 1) = doneAll k ++ [Event.done k none] := by
  simp [doneAll, List.range_succ]

/-- Once the rows are applied, the table service can complete them all, in
the order in which they were applied. -/
theorem run_doneAll (s : PutState) (hpc : s.pc ≠ PutPc.crashed) (hc : s.completed = []) :
    ∀ k, k ≤ s.applied.length → ∃ s2, run s (doneAll k) = some s2 ∧
      s2.completed.map Prod.fst = List.range k ∧ s2.applied = s.applied ∧ s2.pc = s.pc := by
  intro k
  induction k with
  | zero =>
    intro _
    exact ⟨s, rfl, by simp [hc], rfl, rfl⟩
  | succ k ih =>
    intro hk
    obtain ⟨s1, hrun, hcomp, happ, hpc1⟩ := ih (by omega)
    have hstep : step (Event.done k none) s1 = some (PutCallback s1 k none) := by
      simp only [step]
      rw [if_pos]
      refine ⟨by rw [hpc1]; exact hpc, by rw [happ]; omega, ?_⟩
      rw [hcomp]
      simp
    obtain ⟨f1, f2, -⟩ := decAndInvoke_frame s1
    refine ⟨PutCallback s1 k none, ?_, ?_, ?_, ?_⟩
    · rw [doneAll_succ, run_append, hrun]
      simp only [Option.bind, run, hstep]
    · simp [PutCallback, hcomp, List.range_succ]
    · simp only [PutCallback, f1, happ]
    · simp only [PutCallback, f2, hpc1]

/-- When the tables of a request resolve there is a complete run: `Put` runs
to its end and the rows complete afterwards, in order. -/
theorem complete_run_exists (self : TableImpl) (req : StoreRequest) (resp : StoreResponse)
    (hw : self.fs_.writer_.isSome = true)
    (hp : (self.GetTable req.table_name).isSome = true)
    (hi : ∀ it ∈ req.index_list, (self.GetTable it.index_name).isSome = true) :
    ∃ s, run (Put.enter self req resp)
        (putOnly (2 * fanout req + 2) ++ doneAll (fanout req)) = some s ∧
      s.pc = PutPc.returned ∧ s.completed.length = fanout req := by
  obtain ⟨s1, hrun1, hpc1⟩ := run_complete self req resp hw hp hi
  have hc1 : s1.completed = [] := run_putOnly_completed _ _ _ hrun1
  obtain ⟨-, -, -, -, -, -, hinv⟩ := inv_reachable hrun1
  rw [hpc1] at hinv
  have hlen : s1.applied.length = fanout req := applied_length _ _ _ _ hinv.2.1
  obtain ⟨s2, hrun2, hcomp, -, hpc2⟩ := run_doneAll s1 (by simp [hpc1]) hc1 (fanout req)
    (by omega)
  refine ⟨s2, ?_, by rw [hpc2, hpc1], ?_⟩
  · rw [run_append, hrun1]
    exact hrun2
  · have := congrArg List.length hcomp
    simpa using this

/-! ## The fan-in protocol -/

/-- C1 (fan-in exactness). In every state reachable by interleaving the steps
of `Put` with the completions of its mutations, either `Put` has returned, all
`1 + len(index_list)` completions have run their decrement, and the user
callback was invoked exactly once (with the request and the response of the
call, the context deleted once), or the run is not complete and the callback
was not invoked at all. No completion touches a deleted context and no row
completes twice. On a table that holds a writer and for a request whose tables
resolve a complete run exists. -/
theorem put_callback_exactly_once (self : TableImpl) (req : StoreRequest)
    (resp : StoreResponse) :
    (∀ es s, run (Put.enter self req resp) es = some s →
      s.use_after_delete = false ∧ (s.completed.map Prod.fst).Nodup ∧
      ((s.pc = PutPc.returned ∧ s.completed.length = fanout req ∧
          s.callbacks = [(req, resp)] ∧ s.deleted = true) ∨
       ((s.pc ≠ PutPc.returned ∨ s.completed.length < fanout req) ∧
          s.callbacks = [] ∧ s.deleted = false))) ∧
    (self.fs_.writer_.isSome = true →
      (self.GetTable req.table_name).isSome = true →
      (∀ it ∈ req.index_list, (self.GetTable it.index_name).isSome = true) →
      ∃ s, run (Put.enter self req resp)
          (putOnly (2 * fanout req + 2) ++ doneAll (fanout req)) = some s ∧
        s.pc = PutPc.returned ∧ s.completed.length = fanout req) := by
  refine ⟨?_, complete_run_exists self req resp⟩
  intro es s h
  have hinv := inv_reachable h
  obtain ⟨-, -, -, hnd, -, hcl, hpc⟩ := inv_reachable h
  refine ⟨hcl, hnd, ?_⟩
  by_cases hp : s.pc = PutPc.returned
  · rw [hp] at hpc
    obtain ⟨-, happ, -, -, hor⟩ := hpc
    have hlen := applied_length _ _ _ _ happ
    unfold fanout
    rcases hor with ⟨hc, -, hdel, hcb⟩ | ⟨hlt, -, hdel, hcb⟩
    · exact Or.inl ⟨hp, by omega, hcb, hdel⟩
    · exact Or.inr ⟨Or.inr (by omega), hcb, hdel⟩
  · obtain ⟨hcb, hdel, -⟩ := inv_not_returned hinv hp
    exact Or.inr ⟨Or.inl hp, hcb, hdel⟩

theorem put_callback_exactly_once_witness :
    run (Put.enter (demoTable true) demoReq {}) demoSchedule = some (demoState demoSchedule) ∧
    (demoTable true).fs_.writer_.isSome = true ∧
    ((demoTable true).GetTable demoReq.table_name).isSome = true ∧
    (∀ it ∈ demoReq.index_list, ((demoTable true).GetTable it.index_name).isSome = true) ∧
    (demoState demoSchedule).use_after_delete = false ∧
    ((demoState demoSchedule).completed.map Prod.fst).Nodup ∧
    (((demoState demoSchedule).pc = PutPc.returned ∧
        (demoState demoSchedule).completed.length = fanout demoReq ∧
        (demoState demoSchedule).callbacks = [(demoReq, {})] ∧
        (demoState demoSchedule).deleted = true) ∨
     (((demoState demoSchedule).pc ≠ PutPc.returned ∨
        (demoState demoSchedule).completed.length < fanout demoReq) ∧
        (demoState demoSchedule).callbacks = [] ∧ (demoState demoSchedule).deleted = false)) ∧
    ∃ s, run (Put.enter (demoTable true) demoReq {})
        (putOnly (2 * fanout demoReq + 2) ++ doneAll (fanout demoReq)) = some s ∧
      s.pc = PutPc.returned ∧ s.completed.length = fanout demoReq :=
  ⟨rfl, by decide, by decide, by decide,
    ((put_callback_exactly_once (demoTable true) demoReq {}).1 demoSchedule
      (demoState demoSchedule) rfl).1,
    ((put_callback_exactly_once (demoTable true) demoReq {}).1 demoSchedule
      (demoState demoSchedule) rfl).2.1,
    ((put_callback_exactly_once (demoTable true) demoReq {}).1 demoSchedule
      (demoState demoSchedule) rfl).2.2,
    (put_callback_exactly_once (demoTable true) demoReq {}).2 (by decide) (by decide)
      (by decide)⟩

/-- The complete run of the scenario: the callback is invoked once, after both
completions. -/
theorem scenario_callback :
    (demoState demoSchedule).pc = PutPc.returned ∧
    (demoState demoSchedule).completed = [(0, none), (1, none)] ∧
    (demoState demoSchedule).callbacks = [(demoReq, {})] := by
  decide

/-- C2 (no premature completion). In every reachable state in which `Put` has
not executed its final decrement, the user callback has not been invoked and
the context is not deleted; once the context exists its counter is at least
1, however many completions have raced ahead. The context does not exist only
before the first step of `Put`, or when the program stopped in that step, and
then no row has been applied. -/
theorem put_no_premature_callback (self : TableImpl) (req : StoreRequest)
    (resp : StoreResponse) (es : List Event) (s : PutState)
    (h : run (Put.enter self req resp) es = some s) (hp : s.pc ≠ PutPc.returned) :
    s.callbacks = [] ∧ s.deleted = false ∧
    (((s.pc = PutPc.start ∨ s.pc = PutPc.crashed) ∧ s.context = none ∧ s.applied = []) ∨
     ∃ context, s.context = some context ∧ 1 ≤ context.counter_) :=
  inv_not_returned (inv_reachable h) hp

theorem put_no_premature_callback_witness :
    run (Put.enter (demoTable true) demoReq {}) (putOnly 3 ++ [Event.done 0 none]) =
      some (demoState (putOnly 3 ++ [Event.done 0 none])) ∧
    (demoState (putOnly 3 ++ [Event.done 0 none])).pc ≠ PutPc.returned ∧
    (demoState (putOnly 3 ++ [Event.done 0 none])).callbacks = [] ∧
    (demoState (putOnly 3 ++ [Event.done 0 none])).deleted = false ∧
    ((((demoState (putOnly 3 ++ [Event.done 0 none])).pc = PutPc.start ∨
        (demoState (putOnly 3 ++ [Event.done 0 none])).pc = PutPc.crashed) ∧
        (demoState (putOnly 3 ++ [Event.done 0 none])).context = none ∧
        (demoState (putOnly 3 ++ [Event.done 0 none])).applied = []) ∨
     ∃ context, (demoState (putOnly 3 ++ [Event.done 0 none])).context = some context ∧
        1 ≤ context.counter_) :=
  ⟨rfl, by decide, put_no_premature_callback (demoTable true) demoReq {}
    (putOnly 3 ++ [Event.done 0 none]) (demoState (putOnly 3 ++ [Event.done 0 none])) rfl
    (by decide)⟩

/-- The state of the scenario after the completion of the primary row has
raced ahead of the dispatch of the index row: the counter holds 1. -/
theorem scenario_race :
    (demoState (putOnly 3 ++ [Event.done 0 none])).pc =
      PutPc.indexInc { index_name := "by_name", index_key := "alice" } [] ∧
    (demoState (putOnly 3 ++ [Event.done 0 none])).context.map PutContext.counter_ = some 1 := by
  decide

/-- C3, counterexample. On the table of the scenario, which holds a writer:
for the request without index entries the counter holds 2 when the primary
row is about to be applied, while the request has one mutation; and for the
request of the scenario `Put` has executed 2 increments at that point and
executes a third afterwards. -/
theorem put_counter_at_primary_apply_counterexample :
    (demoTable true).fs_.writer_.isSome = true ∧
    (∃ s row, run (Put.enter (demoTable true) demoReqNoIndex {}) (putOnly 2) = some s ∧
      s.pc = PutPc.primaryApply row ∧ s.context.map PutContext.counter_ = some 2 ∧
      s.context.map PutContext.counter_ ≠ some (fanout demoReqNoIndex : Int)) ∧
    (∃ s1 s2 row, run (Put.enter (demoTable true) demoReq {}) (putOnly 2) = some s1 ∧
      s1.pc = PutPc.primaryApply row ∧ run s1 (putOnly 2) = some s2 ∧
      s1.incs = 2 ∧ s2.incs = 3) :=
  ⟨by decide, ⟨_, _, rfl, rfl, rfl, by decide⟩, ⟨_, _, _, rfl, rfl, rfl, rfl, rfl⟩⟩

/-- C3, amended. When the primary row is about to be applied no completion
has run and the counter holds 2: the increment of `Put` for itself and the
one for the primary row. `Put` increments once more before each index row:
when an index row is about to be applied with `rest` entries left the
increments executed and the entries left add up to `2 + len(index_list)`.
Before the final decrement `Put` has executed `2 + len(index_list)`
increments and the counter holds `1 + N - c`, with `N = 1 + len(index_list)`
and `c` the number of completions that have run; after it the counter holds
`N - c`, or the context is gone when `c = N`: the final decrement gives the
count of `Put` back. -/
theorem put_counter_increments (self : TableImpl) (req : StoreRequest)
    (resp : StoreResponse) (es : List Event) (s : PutState)
    (h : run (Put.enter self req resp) es = some s) :
    (∀ row, s.pc = PutPc.primaryApply row →
      s.context.map PutContext.counter_ = some 2 ∧ s.incs = 2 ∧ s.completed = []) ∧
    (∀ row rest, s.pc = PutPc.indexApply row rest →
      s.incs + rest.length = 2 + req.index_list.length) ∧
    (s.pc = PutPc.finalDec →
      s.incs = 2 + req.index_list.length ∧
      s.context.map PutContext.counter_ =
        some ((1 : Int) + fanout req - s.completed.length)) ∧
    (s.pc = PutPc.returned →
      s.incs = 2 + req.index_list.length ∧
      ((s.completed.length = fanout req ∧ s.context = none) ∨
       (s.completed.length < fanout req ∧
        s.context.map PutContext.counter_ =
          some ((fanout req : Int) - s.completed.length)))) := by
  obtain ⟨-, -, -, hnd, hbd, -, hpc⟩ := inv_reachable h
  have hlen := length_le_of_nodup_bound _ _ hnd hbd
  simp only [List.length_map] at hlen
  refine ⟨?_, ?_, ?_, ?_⟩
  · intro row hq
    rw [hq] at hpc
    obtain ⟨⟨hctx, -⟩, happ, hincs, -⟩ := hpc
    have hc0 : s.completed = [] := by
      rw [happ] at hlen
      simpa using hlen
    refine ⟨?_, hincs, hc0⟩
    simp [hctx, happ, hc0]
  · intro row rest hq
    rw [hq] at hpc
    obtain ⟨-, pre, it, hl, -, -, hincs⟩ := hpc
    rw [hl, hincs]
    simp only [List.length_append, List.length_cons]
    omega
  · intro hq
    rw [hq] at hpc
    obtain ⟨⟨hctx, -⟩, happ, hincs⟩ := hpc
    have hal := applied_length _ _ _ _ happ
    refine ⟨hincs, ?_⟩
    rw [hctx]
    simp only [Option.map_some', Option.some.injEq, fanout, hal]
    push_cast
    omega
  · intro hq
    rw [hq] at hpc
    obtain ⟨-, happ, hincs, -, hor⟩ := hpc
    have hal := applied_length _ _ _ _ happ
    refine ⟨hincs, ?_⟩
    rcases hor with ⟨hc, hctx, -⟩ | ⟨hlt, hctx, -⟩
    · exact Or.inl ⟨by unfold fanout; omega, hctx⟩
    · refine Or.inr ⟨by unfold fanout; omega, ?_⟩
      rw [hctx]
      simp only [Option.map_some', Option.some.injEq, fanout, hal]

theorem put_counter_increments_witness :
    (run (Put.enter (demoTable true) demoReq {}) (putOnly 2) = some (demoState (putOnly 2)) ∧
      (demoState (putOnly 2)).pc = PutPc.primaryApply demoPrimaryRow ∧
      (demoState (putOnly 2)).context.map PutContext.counter_ = some 2 ∧
      (demoState (putOnly 2)).incs = 2 ∧ (demoState (putOnly 2)).completed = []) ∧
    (run (Put.enter (demoTable true) demoReq {}) (putOnly 4) = some (demoState (putOnly 4)) ∧
      (demoState (putOnly 4)).pc = PutPc.indexApply demoIndexRow [] ∧
      (demoState (putOnly 4)).incs + ([] : List Index).length = 2 + demoReq.index_list.length) ∧
    (run (Put.enter (demoTable true) demoReq {}) (putOnly 5) = some (demoState (putOnly 5)) ∧
      (demoState (putOnly 5)).pc = PutPc.finalDec ∧
      (demoState (putOnly 5)).incs = 2 + demoReq.index_list.length ∧
      (demoState (putOnly 5)).context.map PutContext.counter_ =
        some ((1 : Int) + fanout demoReq - (demoState (putOnly 5)).completed.length)) ∧
    (run (Put.enter (demoTable true) demoReq {}) (putOnly 6) = some (demoState (putOnly 6)) ∧
      (demoState (putOnly 6)).pc = PutPc.returned ∧
      (demoState (putOnly 6)).incs = 2 + demoReq.index_list.length ∧
      (((demoState (putOnly 6)).completed.length = fanout demoReq ∧
          (demoState (putOnly 6)).context = none) ∨
       ((demoState (putOnly 6)).completed.length < fanout demoReq ∧
        (demoState (putOnly 6)).context.map PutContext.counter_ =
          some ((fanout demoReq : Int) - (demoState (putOnly 6)).completed.length)))) :=
  ⟨⟨rfl, rfl,
      (put_counter_increments (demoTable true) demoReq {} (putOnly 2) (demoState (putOnly 2))
        rfl).1 demoPrimaryRow rfl⟩,
    ⟨rfl, rfl,
      (put_counter_increments (demoTable true) demoReq {} (putOnly 4) (demoState (putOnly 4))
        rfl).2.1 demoIndexRow [] rfl⟩,
    ⟨rfl, rfl,
      (put_counter_increments (demoTable true) demoReq {} (putOnly 5) (demoState (putOnly 5))
        rfl).2.2.1 rfl⟩,
    ⟨rfl, rfl,
      (put_counter_increments (demoTable true) demoReq {} (putOnly 6) (demoState (putOnly 6))
        rfl).2.2.2 rfl⟩⟩

/-- The counter of the scenario around the final decrement, no completion
having run: 3 before it, 2 after it. -/
theorem scenario_final_decrement :
    (demoState (putOnly 5)).context.map PutContext.counter_ = some 3 ∧
    (demoState (putOnly 6)).context.map PutContext.counter_ = some 2 := by
  decide

/-! ## The rows `Put` applies -/

/-- C4, counterexample. On the table of the scenario, which holds a writer,
the request with the entry for the unknown index `nope` has 3 mutations; `Put`
applies the first two and stops at the third, and in no interleaving does it
return. On the table without a writer `Put` stops in its first step with no
row applied. -/
theorem put_applies_all_counterexample :
    (demoTable true).fs_.writer_.isSome = true ∧ fanout demoReqUnknown = 3 ∧
    (∃ s, run (Put.enter (demoTable true) demoReqUnknown {}) (putOnly 6) = some s ∧
      s.pc = PutPc.crashed ∧ s.applied = [demoPrimaryRow, demoIndexRow]) ∧
    (∀ es s, run (Put.enter (demoTable true) demoReqUnknown {}) es = some s →
      s.pc ≠ PutPc.returned) ∧
    (∃ s, run (Put.enter demoTableNoWriter demoReq {}) (putOnly 1) = some s ∧
      s.pc = PutPc.crashed ∧ s.applied = []) := by
  refine ⟨by decide, by decide, ⟨_, rfl, rfl, by decide⟩, ?_, ⟨_, rfl, rfl, rfl⟩⟩
  intro es s hrun hpc
  obtain ⟨-, -, -, -, -, -, hinv⟩ := inv_reachable hrun
  rw [hpc] at hinv
  exact applied_resolves _ _ _ _ hinv.2.1 { index_name := "nope", index_key := "x" }
    (by decide) (by decide)

/-- C4, amended. On a table that holds a data writer and for a request whose
`table_name` and index names resolve to table handles, `Put` on its own
returns 0 after `2 * (1 + len(index_list)) + 2` steps, and in every
interleaving, once `Put` has returned it has applied exactly
`1 + len(index_list)` rows: first one on the table of `table_name` with row
key `primary_key ++ timestamp` and the location in the column family
`Location`, then for each entry of `index_list`, in order, one on the table
of its `index_name` with row key `index_key ++ timestamp` and the primary row
key in the column family `PrimaryKey`. -/
theorem put_applies_all_mutations (self : TableImpl) (req : StoreRequest)
    (resp : StoreResponse) (writer : DataWriter) (hw : self.fs_.writer_ = some writer)
    (hp : (self.GetTable req.table_name).isSome = true)
    (hi : ∀ it ∈ req.index_list, (self.GetTable it.index_name).isSome = true) :
    (∃ s, run (Put.enter self req resp) (putOnly (2 * fanout req + 2)) = some s ∧
      s.pc = PutPc.returned ∧ s.ret = some 0) ∧
    ∀ es s, run (Put.enter self req resp) es = some s → s.pc = PutPc.returned →
      s.applied.length = 1 + req.index_list.length ∧
      s.applied.map (fun r => (some r.table, r.row_key, r.family, r.qualifier, r.value)) =
        (self.GetTable req.table_name, req.primary_key ++ req.timestamp, "Location",
            (writer.AddRecord req.data {}).2.SerializeToString, "") ::
          req.index_list.map
            (fun it => (self.GetTable it.index_name, it.index_key ++ req.timestamp,
              "PrimaryKey", req.primary_key ++ req.timestamp, "")) := by
  constructor
  · obtain ⟨s, hrun, hpc⟩ := run_complete self req resp (by simp [hw]) hp hi
    obtain ⟨-, -, -, -, -, -, hinv⟩ := inv_reachable hrun
    rw [hpc] at hinv
    exact ⟨s, hrun, hpc, hinv.2.2.2.1⟩
  · intro es s hrun hpc
    obtain ⟨-, -, -, -, -, -, hinv⟩ := inv_reachable hrun
    rw [hpc] at hinv
    refine ⟨applied_length _ _ _ _ hinv.2.1, ?_⟩
    rw [← appendLocation_some req hw]
    exact applied_cells _ _ _ _ hinv.2.1

theorem put_applies_all_mutations_witness :
    (demoTable true).fs_.writer_ = some (demoWriter true "db/Filesystem//T//0.data") ∧
    ((demoTable true).GetTable demoReq.table_name).isSome = true ∧
    (∀ it ∈ demoReq.index_list, ((demoTable true).GetTable it.index_name).isSome = true) ∧
    ((∃ s, run (Put.enter (demoTable true) demoReq {}) (putOnly (2 * fanout demoReq + 2)) = some s ∧
      s.pc = PutPc.returned ∧ s.ret = some 0) ∧
    ∀ es s, run (Put.enter (demoTable true) demoReq {}) es = some s → s.pc = PutPc.returned →
      s.applied.length = 1 + demoReq.index_list.length ∧
      s.applied.map (fun r => (some r.table, r.row_key, r.family, r.qualifier, r.value)) =
        ((demoTable true).GetTable demoReq.table_name,
            demoReq.primary_key ++ demoReq.timestamp, "Location",
            ((demoWriter true "db/Filesystem//T//0.data").AddRecord demoReq.data {}).2.SerializeToString,
            "") ::
          demoReq.index_list.map
            (fun it => ((demoTable true).GetTable it.index_name,
              it.index_key ++ demoReq.timestamp, "PrimaryKey",
              demoReq.primary_key ++ demoReq.timestamp, ""))) :=
  ⟨rfl, by decide, by decide,
    put_applies_all_mutations (demoTable true) demoReq {}
      (demoWriter true "db/Filesystem//T//0.data") rfl (by decide) (by decide)⟩

/-- The rows the scenario applies, as the spec lists them: two mutations with
row keys `pk1t1` on the primary table and `alicet1` on the table of `by_name`. -/
theorem scenario_rows :
    (demoState (putOnly 6)).pc = PutPc.returned ∧
    (demoState (putOnly 6)).applied = [demoPrimaryRow, demoIndexRow] := by
  decide

/-! ## Failures -/

/-- C6, counterexample. On the table of the scenario, which holds a writer, and
for the request of the scenario followed by an entry for the index `nope`, for
which `GetTable` finds no handle, `Put` has applied the primary row and the
row of `by_name` when it reaches that entry. -/
theorem put_unknown_index_counterexample :
    (demoTable true).fs_.writer_.isSome = true ∧
    (demoTable true).GetTable "nope" = none ∧
    ∃ s, run (Put.enter (demoTable true) demoReqUnknown {}) (putOnly 5) = some s ∧
      s.pc = PutPc.indexInc { index_name := "nope", index_key := "x" } [] ∧
      s.applied.map (fun r => (r.table.name, r.row_key)) =
        [("db#T", "pk1t1"), ("db#by_name", "alicet1")] :=
  ⟨by decide, by decide, _, rfl, rfl, by decide⟩

/-- C6, amended. `Put` does not check the index names of a request before it
dispatches. On a table that holds a data writer, when
`index_list = pre ++ bad :: rest`, the table of `table_name` and the tables of
`pre` resolve and `GetTable` finds no handle for `bad.index_name`, then `Put`
on its own reaches the entry `bad` after `2 * len(pre) + 3` steps with the
lookup for it failing, having applied the primary row and the rows of `pre`,
in order, and not having invoked the callback. -/
theorem put_dispatches_before_unknown_index (self : TableImpl) (req : StoreRequest)
    (resp : StoreResponse) (pre : List Index) (bad : Index) (rest : List Index)
    (hl : req.index_list = pre ++ bad :: rest)
    (hw : self.fs_.writer_.isSome = true)
    (hp : (self.GetTable req.table_name).isSome = true)
    (hi : ∀ it ∈ pre, (self.GetTable it.index_name).isSome = true)
    (hbad : self.GetTable bad.index_name = none) :
    ∃ s, run (Put.enter self req resp) (putOnly (2 * pre.length + 3)) = some s ∧
      s.pc = PutPc.indexInc bad rest ∧ s.self.GetTable bad.index_name = none ∧
      s.callbacks = [] ∧ s.applied.length = 1 + pre.length ∧
      s.applied.map (fun r => (some r.table, r.row_key)) =
        (self.GetTable req.table_name, req.primary_key ++ req.timestamp) ::
          pre.map (fun it => (self.GetTable it.index_name, it.index_key ++ req.timestamp)) := by
  obtain ⟨s, hrun, hpc⟩ := run_prefix self req resp pre (bad :: rest) hl hw hp hi
  simp only [loopHead] at hpc
  obtain ⟨-, -, htera, -, -, -, hinv⟩ := inv_reachable hrun
  rw [hpc] at hinv
  obtain ⟨⟨-, hcb, -⟩, pre2, hl2, happ, -⟩ := hinv
  have hpre : pre2 = pre := by
    rw [hl] at hl2
    exact (List.append_cancel_right hl2).symm
  subst hpre
  refine ⟨s, hrun, hpc, ?_, hcb, applied_length _ _ _ _ happ, ?_⟩
  · simpa [TableImpl.GetTable, htera] using hbad
  · have hcells := applied_cells _ _ _ _ happ
    have := congrArg (List.map (fun c : Option Table × String × String × String × String =>
      (c.1, c.2.1))) hcells
    simpa [List.map_map, Function.comp_def] using this

theorem put_dispatches_before_unknown_index_witness :
    demoReqUnknown.index_list =
      demoReq.index_list ++ { index_name := "nope", index_key := "x" } :: [] ∧
    (demoTable true).fs_.writer_.isSome = true ∧
    ((demoTable true).GetTable demoReqUnknown.table_name).isSome = true ∧
    (∀ it ∈ demoReq.index_list, ((demoTable true).GetTable it.index_name).isSome = true) ∧
    (demoTable true).GetTable "nope" = none ∧
    ∃ s, run (Put.enter (demoTable true) demoReqUnknown {})
        (putOnly (2 * demoReq.index_list.length + 3)) = some s ∧
      s.pc = PutPc.indexInc { index_name := "nope", index_key := "x" } [] ∧
      s.self.GetTable "nope" = none ∧
      s.callbacks = [] ∧ s.applied.length = 1 + demoReq.index_list.length ∧
      s.applied.map (fun r => (some r.table, r.row_key)) =
        ((demoTable true).GetTable demoReqUnknown.table_name,
            demoReqUnknown.primary_key ++ demoReqUnknown.timestamp) ::
          demoReq.index_list.map
            (fun it => ((demoTable true).GetTable it.index_name,
              it.index_key ++ demoReqUnknown.timestamp)) :=
  ⟨rfl, by decide, by decide, by decide, by decide,
    put_dispatches_before_unknown_index (demoTable true) demoReqUnknown {} demoReq.index_list
      { index_name := "nope", index_key := "x" } [] rfl (by decide) (by decide) (by decide)
      (by decide)⟩

/-- A description whose name is registered is skipped: the database is left
as it is and no table is constructed, with or without `NDEBUG`. -/
theorem createTable_body_registered (ndebug : Bool) (db : DatabaseImpl) (it : TableDescription)
    (h : db.registered it.table_name = true) :
    DatabaseImpl.CreateTable.body ndebug db it = some db := by
  simp [DatabaseImpl.CreateTable.body, h]

/-- A request all of whose names are registered leaves the database as it is. -/
theorem createTable_loop_registered (ndebug : Bool) (db : DatabaseImpl)
    (l : List TableDescription) (h : ∀ it ∈ l, db.registered it.table_name = true) :
    DatabaseImpl.CreateTable.loop ndebug db l = some db := by
  induction l with
  | nil => rfl
  | cons it l ih =>
    simp only [DatabaseImpl.CreateTable.loop,
      createTable_body_registered ndebug db it (h it (by simp))]
    exact ih (fun it2 h2 => h it2 (by simp [h2]))

/-- C8, the code at the failing input: the empty database `db` and the request
to create table `T`. `InternalCreateTable` returns 0, so the assertion of line
57 aborts the call before `T` is registered; with `NDEBUG` the assertion and
the call inside it are compiled away, `CreateTable` returns 0 and `T` is
registered once, with a pointer that was never assigned and without any
table being constructed. -/
theorem createTable_fresh_name :
    DatabaseImpl.CreateTable false demoDb demoCreate = none ∧
    (DatabaseImpl.CreateTable true demoDb demoCreate).map
        (fun r => (r.1, r.2.count "T", (r.2.find "T").isSome, r.2.constructed)) =
      some (0, 1, false, 0) ∧
    (demoDb.InternalCreateTable demoDesc).1 = 0 :=
  ⟨rfl, by decide, rfl⟩

/-- C9, counterexample. Disassembling the schema assembled from the description
of table `T` into an empty description leaves the empty description. -/
theorem disassemble_roundtrip_counterexample :
    (DisassembleTableSchema (AssembleTableSchema demoDesc {}).2
      { table_name := "", primary_key_type := 0, index_descriptor_list := [] }).2 ≠ demoDesc := by
  decide

/-- C9, amended. `DisassembleTableSchema` is not implemented: on the schema
assembled from any description `td` it returns 0 and leaves the output
description as the caller passed it, so the result equals `td` exactly when
the output description was `td` before the call. -/
theorem disassemble_leaves_output (td out : TableDescription) :
    DisassembleTableSchema (AssembleTableSchema td {}).2 out = (0, out) ∧
    ((DisassembleTableSchema (AssembleTableSchema td {}).2 out).2 = td ↔ out = td) :=
  ⟨rfl, Iff.rfl⟩

/-- C10 (order-preserving assembly). For every description `td` and an empty
schema, `AssembleTableSchema` returns 0 and the schema has the table name and
the primary key type of `td` and an index list of the same length whose entry
at each position `i` has the name and the key type of the description at
position `i` of `td`. -/
theorem assemble_preserves_order (td : TableDescription) :
    (AssembleTableSchema td {}).1 = 0 ∧
    (AssembleTableSchema td {}).2.table_name = td.table_name ∧
    (AssembleTableSchema td {}).2.primary_key_type = td.primary_key_type ∧
    (AssembleTableSchema td {}).2.index_descriptor_list.length =
      td.index_descriptor_list.length ∧
    ∀ i : Nat,
      ((AssembleTableSchema td {}).2.index_descriptor_list[i]?).map
          (fun x => (x.index_name, x.index_key_type)) =
        (td.index_descriptor_list[i]?).map (fun d => (d.index_name, d.index_key_type)) := by
  rw [assemble_empty]
  refine ⟨rfl, rfl, rfl, by simp, ?_⟩
  intro i
  simp only [List.getElem?_map, Option.map_map]
  rfl

end mdt
